import Mathlib

/-!
Verification of the user-registry component of `src/main.py` (a FastAPI
template application).  The registry keeps an in-memory list `users_db` of
user records; three request handlers operate on it:

* `create_user` (src/main.py lines 68-90): POST /users/ — rejects a
  duplicate username with HTTPException 400 "Username already registered",
  otherwise builds a record with id = len(users_db) + 1 and the current
  time, appends it and returns it;
* `get_users` (lines 96-98): GET /users/ — returns the whole list;
* `get_user` (lines 104-115): GET /users/id — first record whose id
  matches, or HTTPException 404 "User not found";
* `http_exception_handler` (lines 118-125): registered for every
  HTTPException, maps it to a dict with keys "error", "status_code" and
  "timestamp".

The embedding is pure: the mutable list `users_db` becomes an explicit
`List User` argument and result, and the wall-clock reads
(`datetime.now()`) become explicit `now` parameters.
-/

/-- Pydantic model `UserCreate` (src/main.py lines 23-29): the body of a
registration request.  The validation constraints (email syntax, username
length 3-50, password length at least 8) are enforced by the parsing layer
before the handler runs and are not needed by the claims below. -/
structure UserCreate where
  email : String
  username : String
  full_name : Option String
  password : String
deriving DecidableEq

/-- Pydantic model `User` (src/main.py lines 31-36): a stored record.  Its
fields are exactly id, email, username, full_name, created_at — there is no
password field.  `created_at` (a `datetime` in the source) is modelled as a
natural-number timestamp. -/
structure User where
  id : Int
  email : String
  username : String
  full_name : Option String
  created_at : Nat
deriving DecidableEq

/-- FastAPI `HTTPException`: a status code and a detail message. -/
structure HTTPException where
  status_code : Nat
  detail : String
deriving DecidableEq

/-- The exception raised at src/main.py lines 74-77 for a duplicate
username.  The spec calls this typed failure `Conflict`; at the HTTP
surface it is realised as status 400 with this detail string. -/
def conflictError : HTTPException :=
  { status_code := 400, detail := "Username already registered" }

/-- The exception raised at src/main.py lines 110-113 for an unknown id.
The spec calls this typed failure `NotFound`; at the HTTP surface it is
realised as status 404 with this detail string. -/
def notFoundError : HTTPException :=
  { status_code := 404, detail := "User not found" }

/-- Handler `create_user` (src/main.py lines 68-90).  `db` is the current
contents of `users_db`, `now` the value of `datetime.now()` at the call.
Returns either the raised exception or the pair (returned record, contents
of `users_db` after the append). -/
def create_user (db : List User) (user : UserCreate) (now : Nat) :
    Except HTTPException (User × List User) :=
  if db.any (fun u => u.username == user.username) then
    Except.error conflictError
  else
    let new_user : User :=
      { id := (db.length : Int) + 1
        email := user.email
        username := user.username
        full_name := user.full_name
        created_at := now }
    Except.ok (new_user, db ++ [new_user])

/-- Contents of `users_db` after a call to `create_user`.  In the source
the only mutation is `users_db.append(new_user)` at line 87; when the
duplicate check raises at line 74 the handler aborts before reaching it, so
on failure the list is exactly the one before the call. -/
def registerState (db : List User) (user : UserCreate) (now : Nat) : List User :=
  match create_user db user now with
  | Except.ok p => p.2
  | Except.error _ => db

/-- Handler `get_users` (src/main.py lines 96-98): returns `users_db`. -/
def get_users (db : List User) : List User := db

/-- Handler `get_user` (src/main.py lines 104-115): the first record whose
id equals `user_id` (the `next(...)` scan at line 107), or the 404
exception when there is none. -/
def get_user (db : List User) (user_id : Int) : Except HTTPException User :=
  match db.find? (fun u => u.id == user_id) with
  | some u => Except.ok u
  | none => Except.error notFoundError

/-- C1: registering a username that is already present fails with the
Conflict error ("Username already registered") and leaves the collection
exactly unchanged: same records, same order, same size. -/
theorem create_user_duplicate_conflict (db : List User) (req : UserCreate) (now : Nat)
    (h : ∃ u ∈ db, u.username = req.username) :
    create_user db req now = Except.error conflictError ∧
      registerState db req now = db := by
  obtain ⟨u, hu, huname⟩ := h
  have hany : db.any (fun v => v.username == req.username) = true :=
    List.any_eq_true.mpr ⟨u, hu, by simp [huname]⟩
  refine ⟨?_, ?_⟩
  · simp [create_user, hany]
  · simp [registerState, create_user, hany]

/-- Witness for C1 at a concrete state: one record with username "alice",
then a request for "alice" again. -/
theorem create_user_duplicate_conflict_witness :
    create_user [⟨1, "a@x.com", "alice", none, 0⟩]
        ⟨"b@x.com", "alice", none, "password2"⟩ 1 = Except.error conflictError ∧
      registerState [⟨1, "a@x.com", "alice", none, 0⟩]
        ⟨"b@x.com", "alice", none, "password2"⟩ 1 = [⟨1, "a@x.com", "alice", none, 0⟩] :=
  create_user_duplicate_conflict _ _ _
    ⟨⟨1, "a@x.com", "alice", none, 0⟩, by simp, rfl⟩

/-- An operation on the registry, as named by the spec: `register` carries
the request body and the `datetime.now()` value of the call; `listAll` and
`getById` are the two read endpoints. -/
inductive Op where
  | register : UserCreate → Nat → Op
  | listAll : Op
  | getById : Int → Op

/-- Contents of `users_db` after one operation.  `create_user` is the only
handler that mutates the list (the append at src/main.py line 87);
`get_users` and `get_user` only read it. -/
def stepOp (db : List User) : Op → List User
  | Op.register req now => registerState db req now
  | Op.listAll => db
  | Op.getById _ => db

/-- States of `users_db` reachable from the initial empty list
(src/main.py line 39) by any sequence of handler calls. -/
inductive Reachable : List User → Prop where
  | empty : Reachable []
  | step (db : List User) (op : Op) : Reachable db → Reachable (stepOp db op)

/-- Ids are positional with offset `n`: the record at index `k` has id
`n + k + 1`.  The registry invariant is the case `n = 0`. -/
def idsFrom (n : Nat) (db : List User) : Prop :=
  ∀ (k : Nat) (hk : k < db.length), (db.get ⟨k, hk⟩).id = (n : Int) + k + 1

/-- Registry invariant on ids: the record at index `k` has id `k + 1`. -/
def idsSequential (db : List User) : Prop := idsFrom 0 db

/-- Registry invariant on usernames: no two records share a username. -/
def usernamesNodup (db : List User) : Prop :=
  (db.map (fun u => u.username)).Nodup

theorem create_user_ok_shape (db : List User) (req : UserCreate) (now : Nat)
    (u : User) (db' : List User)
    (h : create_user db req now = Except.ok (u, db')) :
    db' = db ++ [u] ∧
      u = { id := (db.length : Int) + 1, email := req.email, username := req.username,
            full_name := req.full_name, created_at := now } ∧
      ∀ v ∈ db, v.username ≠ req.username := by
  by_cases hc : db.any (fun v => v.username == req.username) = true
  · simp [create_user, hc] at h
  · have hfresh : ∀ v ∈ db, v.username ≠ req.username := by
      intro v hv
      have := (List.any_eq_true (l := db)).not.mp hc
      push_neg at this
      have hb := this v hv
      simpa using hb
    simp [create_user, hc] at h
    obtain ⟨h1, h2⟩ := h
    subst h1
    exact ⟨h2.symm, rfl, hfresh⟩

theorem create_user_fresh_ok (db : List User) (req : UserCreate) (now : Nat)
    (h : ∀ u ∈ db, u.username ≠ req.username) :
    create_user db req now =
      Except.ok
        ({ id := (db.length : Int) + 1, email := req.email, username := req.username,
           full_name := req.full_name, created_at := now },
         db ++ [{ id := (db.length : Int) + 1, email := req.email, username := req.username,
                  full_name := req.full_name, created_at := now }]) := by
  have hc : db.any (fun v => v.username == req.username) = false := by
    rw [Bool.eq_false_iff]
    intro hany
    obtain ⟨u, hu, hb⟩ := List.any_eq_true.mp hany
    exact h u hu (by simpa using hb)
  simp [create_user, hc]

theorem idsFrom_cons (n : Nat) (u : User) (db : List User) :
    idsFrom n (u :: db) ↔ u.id = (n : Int) + 1 ∧ idsFrom (n + 1) db := by
  constructor
  · intro h
    refine ⟨by simpa using h 0 (by simp), ?_⟩
    intro k hk
    have := h (k + 1) (by simpa using Nat.succ_lt_succ hk)
    simp only [List.get] at this ⊢
    rw [this]
    push_cast
    ring
  · rintro ⟨h0, h⟩ k hk
    cases k with
    | zero => simpa using h0
    | succ m =>
      have hm : m < db.length := Nat.lt_of_succ_lt_succ hk
      have := h m hm
      simp only [List.get] at this ⊢
      rw [this]
      push_cast
      ring

theorem idsFrom_append_singleton (n : Nat) (db : List User) (u : User)
    (hdb : idsFrom n db) (hu : u.id = (n : Int) + db.length + 1) :
    idsFrom n (db ++ [u]) := by
  intro k hk
  rw [List.get_eq_getElem]
  by_cases hlt : k < db.length
  · rw [List.getElem_append_left hlt]
    have := hdb k hlt
    rw [List.get_eq_getElem] at this
    exact this
  · have hlen : k < db.length + 1 := by simpa using hk
    have hk' : k = db.length := by omega
    subst hk'
    simp [hu]

theorem inv_registerState (db : List User) (req : UserCreate) (now : Nat)
    (h1 : idsSequential db) (h2 : usernamesNodup db) :
    idsSequential (registerState db req now) ∧
      usernamesNodup (registerState db req now) := by
  rcases hcu : create_user db req now with e | p
  · simp [registerState, hcu]
    exact ⟨h1, h2⟩
  · obtain ⟨u, db'⟩ := p
    obtain ⟨hdb', hu, hfresh⟩ := create_user_ok_shape db req now u db' hcu
    have hstate : registerState db req now = db ++ [u] := by
      simp [registerState, hcu, hdb']
    rw [hstate]
    constructor
    · refine idsFrom_append_singleton 0 db u h1 ?_
      rw [hu]
      push_cast
      ring
    · have huname : u.username = req.username := by rw [hu]
      unfold usernamesNodup at h2 ⊢
      rw [List.map_append]
      rw [List.nodup_append]
      refine ⟨h2, by simp, ?_⟩
      intro s hs hs'
      simp only [List.map_singleton, List.mem_singleton] at hs'
      obtain ⟨v, hv, hvs⟩ := List.mem_map.mp hs
      exact hfresh v hv (by rw [hvs, hs', huname])

theorem reachable_inv (db : List User) (h : Reachable db) :
    idsSequential db ∧ usernamesNodup db := by
  induction h with
  | empty =>
    constructor
    · intro k hk
      simp at hk
    · simp [usernamesNodup]
  | step db op hdb ih =>
    cases op with
    | register req now => exact inv_registerState db req now ih.1 ih.2
    | listAll => exact ih
    | getById id => exact ih

theorem idsFrom_id_bounds (n : Nat) (db : List User) (h : idsFrom n db)
    (u : User) (hu : u ∈ db) :
    (n : Int) + 1 ≤ u.id ∧ u.id ≤ (n : Int) + db.length := by
  obtain ⟨k, hget⟩ := List.mem_iff_get.mp hu
  have hid := h k.1 k.2
  simp only [Fin.eta] at hid
  rw [hget] at hid
  have hklt : (k.1 : Int) < db.length := by exact_mod_cast k.2
  omega

theorem idsFrom_find_mem (n : Nat) (db : List User) (h : idsFrom n db)
    (r : User) (hr : r ∈ db) :
    db.find? (fun u => u.id == r.id) = some r := by
  induction db generalizing n with
  | nil => simp at hr
  | cons w rest ih =>
    obtain ⟨hw, hrest⟩ := (idsFrom_cons n w rest).mp h
    rcases List.mem_cons.mp hr with hrw | hrrest
    · subst hrw
      simp [List.find?]
    · have hbound := idsFrom_id_bounds (n + 1) rest hrest r hrrest
      have hne : w.id ≠ r.id := by
        rw [hw]
        push_cast at hbound ⊢
        omega
      rw [List.find?_cons_of_neg _ (by simpa using hne)]
      exact ih (n + 1) hrest hrrest

theorem find_none_of_no_id (db : List User) (id : Int)
    (h : ∀ u ∈ db, u.id ≠ id) :
    db.find? (fun u => u.id == id) = none :=
  List.find?_eq_none.mpr (fun u hu => by simpa using h u hu)

theorem idsFrom_exists_id (n : Nat) (db : List User) (h : idsFrom n db)
    (id : Int) (h1 : (n : Int) < id) (h2 : id ≤ (n : Int) + db.length) :
    ∃ u ∈ db, u.id = id := by
  have hklt : (id - n - 1).toNat < db.length := by omega
  refine ⟨db.get ⟨(id - n - 1).toNat, hklt⟩, List.get_mem db _ hklt, ?_⟩
  rw [h (id - n - 1).toNat hklt]
  omega

/-- A concrete registration request used in witnesses (the scenario of
spec section 8). -/
def aliceReq : UserCreate :=
  { email := "a@x.com", username := "alice", full_name := none, password := "password1" }

/-- The record produced by registering `aliceReq` in the empty registry at
time 0. -/
def alice : User :=
  { id := 1, email := "a@x.com", username := "alice", full_name := none, created_at := 0 }

theorem reachable_alice : Reachable [alice] := by
  have e : stepOp [] (Op.register aliceReq 0) = [alice] := by decide
  rw [← e]
  exact Reachable.step [] (Op.register aliceReq 0) Reachable.empty

/-- C2: registering a fresh username succeeds: the new record has id equal
to 1 + the number of records already stored and created_at equal to the
call time, exactly that record is appended at the end of the collection,
the record is returned, and (in any reachable state) its id is strictly
greater than every previously assigned id. -/
theorem create_user_fresh_success (db : List User) (req : UserCreate) (now : Nat)
    (hreach : Reachable db) (hfresh : ∀ u ∈ db, u.username ≠ req.username) :
    ∃ newU : User,
      create_user db req now = Except.ok (newU, db ++ [newU]) ∧
      newU.id = (db.length : Int) + 1 ∧
      newU.created_at = now ∧
      registerState db req now = db ++ [newU] ∧
      ∀ u ∈ db, u.id < newU.id := by
  have hok := create_user_fresh_ok db req now hfresh
  refine ⟨_, hok, rfl, rfl, ?_, ?_⟩
  · simp [registerState, hok]
  · intro u hu
    have hinv := (reachable_inv db hreach).1
    have hb := idsFrom_id_bounds 0 db hinv u hu
    show u.id < (db.length : Int) + 1
    omega

/-- Witness for C2: registering alice in the empty (reachable) registry. -/
theorem create_user_fresh_success_witness :
    ∃ newU : User,
      create_user [] aliceReq 0 = Except.ok (newU, [] ++ [newU]) ∧
      newU.id = (([] : List User).length : Int) + 1 ∧
      newU.created_at = 0 ∧
      registerState [] aliceReq 0 = [] ++ [newU] ∧
      ∀ u ∈ ([] : List User), u.id < newU.id :=
  create_user_fresh_success [] aliceReq 0 Reachable.empty (by simp)

/-- C3: username uniqueness is an invariant of every state reachable from
the empty registry by any sequence of register, list-all and get-by-id
operations: no two records share a username. -/
theorem username_uniqueness_invariant (db : List User) (h : Reachable db) :
    usernamesNodup db :=
  (reachable_inv db h).2

/-- Witness for C3 at the concrete reachable state holding alice. -/
theorem username_uniqueness_invariant_witness : usernamesNodup [alice] :=
  username_uniqueness_invariant [alice] reachable_alice

/-- C4: in every reachable state, looking up the id of a stored record
returns exactly that record, and looking up an id carried by no record
fails with the NotFound error. -/
theorem get_by_id_correct (db : List User) (h : Reachable db) :
    (∀ r ∈ db, get_user db r.id = Except.ok r) ∧
      ∀ id : Int, (∀ r ∈ db, r.id ≠ id) → get_user db id = Except.error notFoundError := by
  have hinv := (reachable_inv db h).1
  constructor
  · intro r hr
    have hfind := idsFrom_find_mem 0 db hinv r hr
    simp [get_user, hfind]
  · intro id hid
    have hfind := find_none_of_no_id db id hid
    simp [get_user, hfind]

/-- Witness for C4 at the concrete reachable state holding alice. -/
theorem get_by_id_correct_witness :
    get_user [alice] alice.id = Except.ok alice ∧
      get_user [alice] 2 = Except.error notFoundError := by
  have h := get_by_id_correct [alice] reachable_alice
  exact ⟨h.1 alice (by simp), h.2 2 (by decide)⟩

/-- C8 (implicit): in every reachable state the record at index k has id
k + 1; consequently lookup succeeds exactly for ids between 1 and the
collection size, and every id at most 0 or greater than the size fails
with the NotFound error. -/
theorem ids_positional (db : List User) (h : Reachable db) :
    idsSequential db ∧
      (∀ id : Int,
        (∃ u, get_user db id = Except.ok u) ↔ 1 ≤ id ∧ id ≤ (db.length : Int)) ∧
      ∀ id : Int, (id ≤ 0 ∨ (db.length : Int) < id) →
        get_user db id = Except.error notFoundError := by
  have hinv := (reachable_inv db h).1
  refine ⟨hinv, ?_, ?_⟩
  · intro id
    constructor
    · rintro ⟨u, hu⟩
      rcases hfind : db.find? (fun v => v.id == id) with _ | w
      · rw [get_user, hfind] at hu
        simp at hu
      · have hmem := List.mem_of_find?_eq_some hfind
        have hid : w.id = id := by simpa using List.find?_some hfind
        have hb := idsFrom_id_bounds 0 db hinv w hmem
        rw [hid] at hb
        omega
    · rintro ⟨h1, h2⟩
      obtain ⟨u, hu, hid⟩ :=
        idsFrom_exists_id 0 db hinv id (by omega) (by omega)
      rcases hfind : db.find? (fun v => v.id == id) with _ | w
      · have := List.find?_eq_none.mp hfind u hu
        simp [hid] at this
      · exact ⟨w, by rw [get_user, hfind]⟩
  · intro id hout
    have hnone : ∀ u ∈ db, u.id ≠ id := by
      intro u hu
      have hb := idsFrom_id_bounds 0 db hinv u hu
      omega
    rw [get_user, find_none_of_no_id db id hnone]

/-- Witness for C8 at the concrete reachable state holding alice. -/
theorem ids_positional_witness :
    idsSequential [alice] ∧
      ((∃ u, get_user [alice] 1 = Except.ok u) ↔
        1 ≤ (1 : Int) ∧ (1 : Int) ≤ (([alice].length : Nat) : Int)) ∧
      get_user [alice] 2 = Except.error notFoundError := by
  have h := ids_positional [alice] reachable_alice
  refine ⟨h.1, h.2.1 1, h.2.2 2 ?_⟩
  right
  decide

/-- A sequence of registration calls starting from `db`: each list entry is
a request body together with the `datetime.now()` value of that call.
Returns the final contents of `users_db` and the records returned by the
successful calls, in call order; a failed call leaves the list untouched
(claim C1) and contributes nothing. -/
def runRegisters (db : List User) :
    List (UserCreate × Nat) → List User × List User
  | [] => (db, [])
  | (req, now) :: rest =>
    match create_user db req now with
    | Except.ok p =>
      let r := runRegisters p.2 rest
      (r.1, p.1 :: r.2)
    | Except.error _ => runRegisters db rest

theorem runRegisters_eq_append (db : List User) (reqs : List (UserCreate × Nat)) :
    (runRegisters db reqs).1 = db ++ (runRegisters db reqs).2 := by
  induction reqs generalizing db with
  | nil => simp [runRegisters]
  | cons hd tl ih =>
    obtain ⟨req, now⟩ := hd
    rcases hcu : create_user db req now with e | p
    · simpa [runRegisters, hcu] using ih db
    · obtain ⟨u, db'⟩ := p
      have hdb' : db' = db ++ [u] :=
        (create_user_ok_shape db req now u db' hcu).1
      have := ih db'
      simp only [runRegisters, hcu]
      rw [this, hdb']
      simp

/-- C5: after any sequence of registration calls starting from the empty
registry, `get_users` returns exactly the records of the successful calls,
in call order, and its length is the number of successful calls; failed
calls contribute nothing. -/
theorem list_all_after_registers (reqs : List (UserCreate × Nat)) :
    get_users (runRegisters [] reqs).1 = (runRegisters [] reqs).2 ∧
      (get_users (runRegisters [] reqs).1).length = (runRegisters [] reqs).2.length := by
  have h := runRegisters_eq_append [] reqs
  simp only [List.nil_append] at h
  exact ⟨h, by rw [get_users, h]⟩

/-- C10 (implicit): `get_users` and `get_user` are pure reads — after
either operation, whether the lookup succeeds or fails, the collection is
exactly the one before the call. -/
theorem reads_leave_state_unchanged (db : List User) (id : Int) :
    stepOp db Op.listAll = db ∧ stepOp db (Op.getById id) = db :=
  ⟨rfl, rfl⟩

/-- C7: a successful registration stores and returns a record holding
exactly the fields id, email, username, full_name and created_at (the
`User` model has no password field), and the outcome of `create_user` does
not depend on the password at all: any two requests agreeing on email,
username and full_name produce identical results. -/
theorem register_omits_password (db : List User) (req : UserCreate) (now : Nat)
    (hfresh : ∀ u ∈ db, u.username ≠ req.username) :
    (∃ newU : User,
        create_user db req now = Except.ok (newU, db ++ [newU]) ∧
        newU = { id := (db.length : Int) + 1, email := req.email,
                 username := req.username, full_name := req.full_name,
                 created_at := now }) ∧
      ∀ pw : String,
        create_user db
            { email := req.email, username := req.username,
              full_name := req.full_name, password := pw } now =
          create_user db req now := by
  refine ⟨⟨_, create_user_fresh_ok db req now hfresh, rfl⟩, ?_⟩
  intro pw
  rfl

/-- Witness for C7: registering alice in the empty registry. -/
theorem register_omits_password_witness :
    (∃ newU : User,
        create_user [] aliceReq 0 = Except.ok (newU, [] ++ [newU]) ∧
        newU = { id := (([] : List User).length : Int) + 1, email := aliceReq.email,
                 username := aliceReq.username, full_name := aliceReq.full_name,
                 created_at := 0 }) ∧
      ∀ pw : String,
        create_user []
            { email := aliceReq.email, username := aliceReq.username,
              full_name := aliceReq.full_name, password := pw } 0 =
          create_user [] aliceReq 0 :=
  register_omits_password [] aliceReq 0 (by simp)

/-- C9 (implicit): email uniqueness is not enforced — a request whose email
is already stored but whose username is fresh succeeds, and afterwards the
collection holds two distinct records with the same email. -/
theorem register_duplicate_email_succeeds (db : List User) (req : UserCreate) (now : Nat)
    (hemail : ∃ u ∈ db, u.email = req.email)
    (hfresh : ∀ u ∈ db, u.username ≠ req.username) :
    ∃ newU : User,
      create_user db req now = Except.ok (newU, db ++ [newU]) ∧
      newU.email = req.email ∧
      ∃ u ∈ db ++ [newU], u ≠ newU ∧ u.email = newU.email := by
  obtain ⟨u, hu, huemail⟩ := hemail
  refine ⟨_, create_user_fresh_ok db req now hfresh, rfl, u, ?_, ?_, huemail⟩
  · exact List.mem_append_left _ hu
  · intro he
    have : u.username = req.username := by rw [he]
    exact hfresh u hu this

/-- Witness for C9: a second record with alice's email but username bob. -/
theorem register_duplicate_email_succeeds_witness :
    ∃ newU : User,
      create_user [alice] ⟨"a@x.com", "bob", none, "password3"⟩ 0 =
        Except.ok (newU, [alice] ++ [newU]) ∧
      newU.email = "a@x.com" ∧
      ∃ u ∈ [alice] ++ [newU], u ≠ newU ∧ u.email = newU.email :=
  register_duplicate_email_succeeds [alice] ⟨"a@x.com", "bob", none, "password3"⟩ 0
    ⟨alice, by simp, rfl⟩ (by decide)

/-- A JSON value, as far as the response bodies of this service need:
strings, integers and null. -/
inductive JVal where
  | jstr : String → JVal
  | jnum : Int → JVal
  | jnull : JVal
deriving DecidableEq

/-- Serialisation of a `User` record dictated by `response_model=User`
(src/main.py lines 65 and 101): the five model fields, in declaration
order. -/
def userJson (u : User) : List (String × JVal) :=
  [ ("id", JVal.jnum u.id)
  , ("email", JVal.jstr u.email)
  , ("username", JVal.jstr u.username)
  , ("full_name", (match u.full_name with
      | some s => JVal.jstr s
      | none => JVal.jnull))
  , ("created_at", JVal.jnum u.created_at) ]

/-- Handler `http_exception_handler` (src/main.py lines 118-125): the dict
built from an `HTTPException`, with `ts` the `datetime.now().isoformat()`
string of the moment the handler runs. -/
def http_exception_handler (exc : HTTPException) (ts : String) :
    List (String × JVal) :=
  [ ("error", JVal.jstr exc.detail)
  , ("status_code", JVal.jnum exc.status_code)
  , ("timestamp", JVal.jstr ts) ]

/-- Body of the response to POST /users/ together with the resulting
contents of `users_db`.  The decorator `app.exception_handler(HTTPException)`
at src/main.py line 118 registers `http_exception_handler` for every
`HTTPException`, so it also intercepts the duplicate-username exception
raised inside `create_user` — FastAPI resolves the handler by the dynamic
type of the raised exception, and this registration shadows the framework
default that would have produced a detail body.  On success the body is
the serialised record. -/
def post_users_response (db : List User) (req : UserCreate) (now : Nat)
    (ts : String) : List (String × JVal) × List User :=
  match create_user db req now with
  | Except.error exc => (http_exception_handler exc ts, db)
  | Except.ok p => (userJson p.1, p.2)

/-- Counterexample to C6 as stated: with one stored record named alice, a
POST /users/ registering alice again does not produce the body consisting
of the single field detail = "Username already registered" — the
registered exception handler intercepts the exception and produces its own
shape instead. -/
theorem post_users_duplicate_detail_body_refuted :
    (post_users_response [alice] ⟨"b@x.com", "alice", none, "password2"⟩ 1 "t").1 ≠
      [("detail", JVal.jstr "Username already registered")] := by
  decide

/-- C6 (amended): a POST /users/ with a duplicate username raises the
HTTPException with status code 400 and detail "Username already
registered", and the handler registered for HTTPException maps it — like
every typed failure — to the JSON body with keys "error" (the detail
string), "status_code" (400) and "timestamp"; the body with a "detail"
key never appears, and the collection is unchanged. -/
theorem post_users_duplicate_handler_body (db : List User) (req : UserCreate)
    (now : Nat) (ts : String) (h : ∃ u ∈ db, u.username = req.username) :
    (post_users_response db req now ts).1 =
      [ ("error", JVal.jstr "Username already registered")
      , ("status_code", JVal.jnum 400)
      , ("timestamp", JVal.jstr ts) ] ∧
      (post_users_response db req now ts).2 = db := by
  obtain ⟨u, hu, huname⟩ := h
  have hany : db.any (fun v => v.username == req.username) = true :=
    List.any_eq_true.mpr ⟨u, hu, by simp [huname]⟩
  constructor <;>
    simp [post_users_response, create_user, hany, http_exception_handler,
      conflictError]

/-- Witness for the amended C6 at the concrete duplicate request. -/
theorem post_users_duplicate_handler_body_witness :
    (post_users_response [alice] ⟨"b@x.com", "alice", none, "password2"⟩ 1 "t").1 =
      [ ("error", JVal.jstr "Username already registered")
      , ("status_code", JVal.jnum 400)
      , ("timestamp", JVal.jstr "t") ] ∧
      (post_users_response [alice] ⟨"b@x.com", "alice", none, "password2"⟩ 1 "t").2 =
        [alice] :=
  post_users_duplicate_handler_body [alice] ⟨"b@x.com", "alice", none, "password2"⟩
    1 "t" ⟨alice, by simp, rfl⟩
